import Mathlib

/-!
Verification of the path-mapping core of `dendron-to-logseq`
(`src/dendron-to-logseq.mjs`, class `Vault`).

JS strings are modelled as Lean `String`s; every string operation the code
uses is implemented over the underlying character list (`String.data`), so
all definitions are executable and proofs can evaluate them.  The code only
ever handles ASCII configuration values and file names, where JS UTF-16
code-unit indexing and Lean scalar-value indexing agree.
-/

/-- Tests whether the character list `p` is a prefix of the character list `s`.
Building block for the embeddings of JS `String.prototype.startsWith` and
`String.prototype.endsWith`. -/
def chStartsWith : List Char → List Char → Bool
  | _, [] => true
  | [], _ :: _ => false
  | c :: cs, p :: ps => c == p && chStartsWith cs ps

/-- Embeds JS `s.startsWith(pre)`. -/
def strStartsWith (s pre : String) : Bool := chStartsWith s.data pre.data

/-- Embeds JS `s.endsWith(post)`. -/
def strEndsWith (s post : String) : Bool := chStartsWith s.data.reverse post.data.reverse

/-- Embeds JS `s.slice(n)` for `0 ≤ n`: drops the first `n` characters
(returns the empty string when `n` is at least the length). -/
def strDrop (s : String) (n : Nat) : String := ⟨s.data.drop n⟩

/-- Removes the last `n` characters of `s` (used to strip a matched suffix). -/
def strDropRight (s : String) (n : Nat) : String := ⟨s.data.take (s.data.length - n)⟩

/-- Last `/`-separated component of a path: the characters after the final
`/` (the whole string when there is no `/`).  This is Node
`path.basename(p)` for every path that does not end in a slash — the only
shape the program ever passes, since its inputs come from `glob` over
`<vault>/*.md`. -/
def basenameRaw (p : String) : String := ⟨(p.data.reverse.takeWhile (fun c => c != '/')).reverse⟩

/-- Embeds `Vault.dendronNodeHierarchyPosition(dendronNodePath)`, i.e.
Node `path.basename(dendronNodePath, ".md")`: the last path component with
a trailing `.md` removed — unless the component is exactly `.md`, which
Node keeps whole (its suffix matcher refuses to empty a component).  The
method reads nothing from the `Vault` instance, so it is embedded as a
function of the path alone.  Faithful to Node for every path that does not
end in `/`. -/
def dendronNodeHierarchyPosition (p : String) : String :=
  if strEndsWith (basenameRaw p) ".md" && basenameRaw p != ".md" then
    strDropRight (basenameRaw p) 3
  else
    basenameRaw p

/-- Embeds `s.replace(/\./g, "___")` over the character list: every `.`
becomes three underscores, every other character passes through. -/
def replTriple : List Char → List Char
  | [] => []
  | c :: cs => (if c = '.' then ['_', '_', '_'] else [c]) ++ replTriple cs

/-- Embeds `s.replace(/\./g, "___")` (the page-flattening substitution in
`Vault.logseqPagePath`). -/
def replaceDotsTriple (s : String) : String := ⟨replTriple s.data⟩

/-- Embeds `s.replace(/\./g, "_")` (the journal-flattening substitution in
`Vault.logseqJournalPath`). -/
def replaceDotsSingle (s : String) : String := ⟨s.data.map (fun c => if c = '.' then '_' else c)⟩

/-- Embeds Node `path.join(a, b)` for the argument shapes used here
(`a` nonempty without trailing slash, `b` a plain file name): `a ++ "/" ++ b`. -/
def pathJoin (a b : String) : String := a ++ "/" ++ b

/-- One vault binding, as built in `main` from a `--vault` triple.
`dendronJournalHierarchy` is `none` when the configured value is not a
string (the code guards every use with `typeof ... !== "string"`). -/
structure Vault where
  dendronVault : String
  logseqGraph : String
  dendronJournalHierarchy : Option String

/-- Embeds the getter `Vault.logseqJournalDir`. -/
def Vault.logseqJournalDir (v : Vault) : String := pathJoin v.logseqGraph "journals"

/-- Embeds the getter `Vault.logseqPageDir`. -/
def Vault.logseqPageDir (v : Vault) : String := pathJoin v.logseqGraph "pages"

/-- Embeds `Vault.isDendronJournalNode(dendronNodePath)`.  When
`dendronJournalHierarchy` is not a string the JS body is `return;`, i.e.
`undefined`; the result is only ever consumed in boolean position (the
`if` in `logseqDestPath`), where `undefined` is falsy, so it is embedded
as `false`. -/
def Vault.isDendronJournalNode (v : Vault) (p : String) : Bool :=
  match v.dendronJournalHierarchy with
  | none => false
  | some h => strStartsWith (dendronNodeHierarchyPosition p) (h ++ ".")

/-- Embeds `Vault.logseqJournalPath(dendronNodePath)`.  The JS `throw new
Error(...)` is modelled as `Except.error` carrying the thrown message. -/
def Vault.logseqJournalPath (v : Vault) (p : String) : Except String String :=
  match v.dendronJournalHierarchy with
  | none => .error "can\x27t template journal path without Dendron hierarchy location"
  | some h =>
    let absHierarchyPos := dendronNodeHierarchyPosition p
    let relHierarchyPos := replaceDotsSingle (strDrop absHierarchyPos (h.length + 1))
    .ok (pathJoin v.logseqJournalDir (relHierarchyPos ++ ".md"))

/-- Embeds `Vault.logseqPagePath(dendronNodePath)` (never throws). -/
def Vault.logseqPagePath (v : Vault) (p : String) : String :=
  pathJoin v.logseqPageDir (replaceDotsTriple (dendronNodeHierarchyPosition p) ++ ".md")

/-- Embeds `Vault.logseqDestPath(dendronNodePath)`: dispatch on the journal
classifier; the page branch cannot throw, so it is wrapped in `Except.ok`. -/
def Vault.logseqDestPath (v : Vault) (p : String) : Except String String :=
  if v.isDendronJournalNode p then v.logseqJournalPath p
  else .ok (v.logseqPagePath p)

/-- Number of occurrences of the character `c` in a character list. -/
def countCh (c : Char) : List Char → Nat
  | [] => 0
  | d :: ds => (if d = c then 1 else 0) + countCh c ds

/-- Number of non-overlapping occurrences of the substring `___`, counted
greedily left to right (each maximal run of `k` underscores contributes
`k / 3`). -/
def countTriple : List Char → Nat
  | '_' :: '_' :: '_' :: rest => countTriple rest + 1
  | _ :: rest => countTriple rest
  | [] => 0

/-- Reverses the page-flattening delimiter substitution, as described in the
specification's round-trip property: every occurrence of `___` (greedily,
left to right) is replaced by `.`. -/
def unflattenPage : List Char → List Char
  | '_' :: '_' :: '_' :: rest => '.' :: unflattenPage rest
  | c :: rest => c :: unflattenPage rest
  | [] => []

/-- String version of `unflattenPage`. -/
def strUnflattenPage (s : String) : String := ⟨unflattenPage s.data⟩

/-- The vault binding of the specification's end-to-end scenarios:
source root `/v`, destination root `/g`, journal root `daily`. -/
def vDaily : Vault := ⟨"/v", "/g", some "daily"⟩

/-! Helper lemmas. -/

theorem str_data_append (s t : String) : (s ++ t).data = s.data ++ t.data := by
  cases s; cases t; rfl

theorem chStartsWith_append_singleton (l : List Char) (c : Char) :
    chStartsWith l (l ++ [c]) = false := by
  induction l with
  | nil => rfl
  | cons a as ih => simp [chStartsWith, ih]

theorem countTriple_cons_of_ne (c : Char) (rest : List Char) (h : c ≠ '_') :
    countTriple (c :: rest) = countTriple rest := by
  generalize hm : countTriple rest = m
  unfold countTriple
  split
  · rename_i heq
    simp only [List.cons.injEq] at heq
    exact absurd heq.1 h
  · rename_i heq
    simp only [List.cons.injEq] at heq
    rw [← heq.2]
    exact hm
  · rename_i heq
    simp at heq

theorem unflattenPage_cons_of_ne (c : Char) (rest : List Char) (h : c ≠ '_') :
    unflattenPage (c :: rest) = c :: unflattenPage rest := by
  generalize hm : unflattenPage rest = m
  unfold unflattenPage
  split
  · rename_i heq
    simp only [List.cons.injEq] at heq
    exact absurd heq.1 h
  · rename_i heq
    simp only [List.cons.injEq] at heq
    rw [← heq.1, ← heq.2, hm]
  · rename_i heq
    simp at heq

theorem replTriple_count_dot_zero (l : List Char) : countCh '.' (replTriple l) = 0 := by
  induction l with
  | nil => rfl
  | cons c cs ih =>
    by_cases hc : c = '.'
    · simp [replTriple, hc, countCh, ih]
    · simp [replTriple, hc, countCh, ih]

theorem replTriple_countTriple (l : List Char) (h : '_' ∉ l) :
    countTriple (replTriple l) = countCh '.' l := by
  induction l with
  | nil => rfl
  | cons c cs ih =>
    have hc : c ≠ '_' := fun hcu => h (hcu ▸ List.mem_cons_self c cs)
    have hcs : '_' ∉ cs := fun hm => h (List.mem_cons_of_mem c hm)
    by_cases hd : c = '.'
    · simp only [replTriple, hd, if_pos rfl, List.cons_append, List.nil_append]
      show countTriple ('_' :: '_' :: '_' :: replTriple cs) = countCh '.' ('.' :: cs)
      simp [countTriple, countCh, ih hcs]
      omega
    · simp only [replTriple, if_neg hd, List.cons_append, List.nil_append]
      rw [countTriple_cons_of_ne c _ hc, ih hcs]
      simp [countCh, hd]

theorem replTriple_of_no_dot (l : List Char) (h : '.' ∉ l) : replTriple l = l := by
  induction l with
  | nil => rfl
  | cons c cs ih =>
    have hc : c ≠ '.' := fun hcd => h (hcd ▸ List.mem_cons_self c cs)
    have hcs : '.' ∉ cs := fun hm => h (List.mem_cons_of_mem c hm)
    simp [replTriple, hc, ih hcs]

theorem isAlphanum_ne_underscore (c : Char) (h : c.isAlphanum = true) : c ≠ '_' := by
  intro hc
  subst hc
  exact absurd h (by decide)

theorem unflattenPage_replTriple (l : List Char)
    (h : ∀ c ∈ l, c.isAlphanum = true ∨ c = '.') : unflattenPage (replTriple l) = l := by
  induction l with
  | nil => rfl
  | cons c cs ih =>
    have hc := h c (List.mem_cons_self c cs)
    have hcs : ∀ d ∈ cs, d.isAlphanum = true ∨ d = '.' :=
      fun d hd => h d (List.mem_cons_of_mem c hd)
    by_cases hd : c = '.'
    · simp only [replTriple, hd, if_pos rfl, List.cons_append, List.nil_append]
      show unflattenPage ('_' :: '_' :: '_' :: replTriple cs) = '.' :: cs
      have hstep : unflattenPage ('_' :: '_' :: '_' :: replTriple cs) =
          '.' :: unflattenPage (replTriple cs) := rfl
      rw [hstep, ih hcs]
    · have hu : c ≠ '_' := by
        rcases hc with hc | hc
        · exact isAlphanum_ne_underscore c hc
        · exact absurd hc hd
      simp only [replTriple, if_neg hd, List.cons_append, List.nil_append]
      rw [unflattenPage_cons_of_ne c _ hu, ih hcs]

/-! Claim theorems. -/

/-- C1: with the scenario binding (source root `/v`, destination root `/g`,
journal root `daily`), the source path `/v/daily.2024.01.15.md` is mapped to
the identifier `daily.2024.01.15`, classified as a journal member, and sent
to the destination `/g/journals/2024_01_15.md`: the journal-root prefix plus
one delimiter character is removed and every remaining dot becomes a single
underscore. -/
theorem c1_journal_scenario :
    dendronNodeHierarchyPosition "/v/daily.2024.01.15.md" = "daily.2024.01.15" ∧
    vDaily.isDendronJournalNode "/v/daily.2024.01.15.md" = true ∧
    vDaily.logseqDestPath "/v/daily.2024.01.15.md" = .ok "/g/journals/2024_01_15.md" :=
  ⟨rfl, rfl, rfl⟩

/-- C2: with the same binding, the source path `/v/projects.alpha.notes.md`
yields the identifier `projects.alpha.notes`, is not a journal member, and
maps to the page destination `/g/pages/projects___alpha___notes.md`: every
dot of the full identifier becomes three underscores. -/
theorem c2_page_scenario :
    dendronNodeHierarchyPosition "/v/projects.alpha.notes.md" = "projects.alpha.notes" ∧
    vDaily.isDendronJournalNode "/v/projects.alpha.notes.md" = false ∧
    vDaily.logseqDestPath "/v/projects.alpha.notes.md" =
      .ok "/g/pages/projects___alpha___notes.md" :=
  ⟨rfl, rfl, rfl⟩

/-- C3: when the binding has no configured journal root, the journal-membership
test returns false for every path, and (being a total function into `Bool`)
never throws. -/
theorem c3_no_journal_root_never_member (v : Vault) (p : String)
    (h : v.dendronJournalHierarchy = none) : v.isDendronJournalNode p = false := by
  unfold Vault.isDendronJournalNode
  rw [h]

theorem c3_no_journal_root_never_member_witness :
    Vault.isDendronJournalNode ⟨"/v", "/g", none⟩ "/v/daily.2024.01.15.md" = false :=
  c3_no_journal_root_never_member ⟨"/v", "/g", none⟩ "/v/daily.2024.01.15.md" rfl

/-- C4: for every configured journal root, an identifier exactly equal to the
root (no trailing segment) is not classified as a journal member; concretely,
`/v/daily.md` under the scenario binding falls through to the page path
`/g/pages/daily.md`. -/
theorem c4_root_itself_not_member :
    (∀ (v : Vault) (r p : String), v.dendronJournalHierarchy = some r →
        dendronNodeHierarchyPosition p = r → v.isDendronJournalNode p = false) ∧
    vDaily.logseqDestPath "/v/daily.md" = .ok "/g/pages/daily.md" := by
  constructor
  · intro v r p hj hp
    unfold Vault.isDendronJournalNode
    rw [hj]
    show strStartsWith (dendronNodeHierarchyPosition p) (r ++ ".") = false
    rw [hp]
    unfold strStartsWith
    rw [str_data_append]
    have hdot : String.data "." = ['.'] := rfl
    rw [hdot]
    exact chStartsWith_append_singleton r.data '.'
  · rfl

theorem c4_root_itself_not_member_witness :
    Vault.isDendronJournalNode vDaily "/v/daily.md" = false :=
  c4_root_itself_not_member.1 vDaily "daily" "/v/daily.md" rfl (by decide)

/-- C5 counterexample: the identifier `___` contains zero occurrences of the
character `.`, yet its page flattening (which is `___` itself) contains one
occurrence of the substring `___` — not exactly zero, refuting the claim as
stated for identifiers that already contain underscore runs. -/
theorem c5_flatten_count_counterexample :
    replaceDotsTriple "___" = "___" ∧
    countCh '.' (String.data "___") = 0 ∧
    countTriple (String.data (replaceDotsTriple "___")) = 1 ∧
    countTriple (String.data (replaceDotsTriple "___")) ≠ countCh '.' (String.data "___") :=
  ⟨rfl, rfl, rfl, by decide⟩

/-- C5 amended: for every identifier containing no underscore, the page
flattening contains exactly as many (non-overlapping, greedily counted)
occurrences of the substring `___` as the identifier has dots, and zero
occurrences of `.`. -/
theorem c5_flatten_count_amended (id : String) (h : '_' ∉ id.data) :
    countTriple (replaceDotsTriple id).data = countCh '.' id.data ∧
    countCh '.' (replaceDotsTriple id).data = 0 :=
  ⟨replTriple_countTriple id.data h, replTriple_count_dot_zero id.data⟩

theorem c5_flatten_count_amended_witness :
    '_' ∉ String.data "a.b" ∧
    (countTriple (replaceDotsTriple "a.b").data = countCh '.' (String.data "a.b") ∧
      countCh '.' (replaceDotsTriple "a.b").data = 0) :=
  ⟨by decide, c5_flatten_count_amended "a.b" (by decide)⟩

/-- C6: the destination-path computation is total: for every binding and every
source path it returns a destination (`Except.ok`), because the
configuration-error branch of the journal renderer is unreachable when it is
reached through the classifier gate in `logseqDestPath`. -/
theorem c6_dest_path_total (v : Vault) (p : String) :
    ∃ s, v.logseqDestPath p = .ok s := by
  cases hb : v.isDendronJournalNode p with
  | false =>
    exact ⟨v.logseqPagePath p, by simp [Vault.logseqDestPath, hb]⟩
  | true =>
    cases hj : v.dendronJournalHierarchy with
    | none =>
      unfold Vault.isDendronJournalNode at hb
      rw [hj] at hb
      simp at hb
    | some hh =>
      exact ⟨pathJoin v.logseqJournalDir
          (replaceDotsSingle (strDrop (dendronNodeHierarchyPosition p) (hh.length + 1)) ++ ".md"),
        by simp [Vault.logseqDestPath, hb, Vault.logseqJournalPath, hj]⟩

/-- C7: invoking the journal-path renderer directly while the journal root is
absent raises the configuration error instead of returning a path. -/
theorem c7_journal_path_without_root_errors (v : Vault) (p : String)
    (h : v.dendronJournalHierarchy = none) :
    v.logseqJournalPath p =
      .error "can\x27t template journal path without Dendron hierarchy location" := by
  unfold Vault.logseqJournalPath
  rw [h]

theorem c7_journal_path_without_root_errors_witness :
    Vault.logseqJournalPath ⟨"/v", "/g", none⟩ "/v/daily.2024.01.15.md" =
      .error "can\x27t template journal path without Dendron hierarchy location" :=
  c7_journal_path_without_root_errors ⟨"/v", "/g", none⟩ "/v/daily.2024.01.15.md" rfl

/-- C8: for every identifier built only from alphanumeric characters and the
dot delimiter (the happy path), applying the page flattening and then
reversing the delimiter substitution (every `___` back to `.`) recovers the
original identifier exactly. -/
theorem c8_roundtrip (id : String)
    (h : ∀ c ∈ id.data, c.isAlphanum = true ∨ c = '.') :
    strUnflattenPage (replaceDotsTriple id) = id := by
  cases id with
  | mk l =>
    show String.mk (unflattenPage (replTriple l)) = String.mk l
    rw [unflattenPage_replTriple l h]

theorem c8_roundtrip_witness :
    (∀ c ∈ String.data "projects.alpha.notes", c.isAlphanum = true ∨ c = '.') ∧
    strUnflattenPage (replaceDotsTriple "projects.alpha.notes") = "projects.alpha.notes" :=
  ⟨by decide, c8_roundtrip "projects.alpha.notes" (by decide)⟩

/-- C9: for every identifier containing no dot, the page flattening is the
identity. -/
theorem c9_no_dot_identity (id : String) (h : '.' ∉ id.data) :
    replaceDotsTriple id = id := by
  cases id with
  | mk l =>
    show String.mk (replTriple l) = String.mk l
    rw [replTriple_of_no_dot l h]

theorem c9_no_dot_identity_witness :
    '.' ∉ String.data "projects" ∧ replaceDotsTriple "projects" = "projects" :=
  ⟨by decide, c9_no_dot_identity "projects" (by decide)⟩

/-- C10: the destination path depends only on the final path component of the
source path: two source paths with the same basename map to the same
destination under every binding, whatever their directory portions. -/
theorem c10_dest_depends_only_on_basename (v : Vault) (p q : String)
    (h : basenameRaw p = basenameRaw q) :
    v.logseqDestPath p = v.logseqDestPath q := by
  have hpos : dendronNodeHierarchyPosition p = dendronNodeHierarchyPosition q := by
    unfold dendronNodeHierarchyPosition
    rw [h]
  simp only [Vault.logseqDestPath, Vault.isDendronJournalNode, Vault.logseqJournalPath,
    Vault.logseqPagePath, hpos]

theorem c10_dest_depends_only_on_basename_witness :
    basenameRaw "/v/notes.md" = basenameRaw "/elsewhere/deep/notes.md" ∧
    Vault.logseqDestPath vDaily "/v/notes.md" =
      Vault.logseqDestPath vDaily "/elsewhere/deep/notes.md" :=
  ⟨rfl, c10_dest_depends_only_on_basename vDaily "/v/notes.md" "/elsewhere/deep/notes.md" rfl⟩
